import Mathlib

/-!
Shallow embedding of the ledger core of `src/main.py` (Infinity Earn bot).

Modelling choices:
* Monetary amounts are exact rationals (`ℚ`); Python `round(x, 8)` is modelled
  by `round8`, rounding to the nearest multiple of `10 ^ (-8)` (ties half-up in
  this model).  The float literal `1e-9` used as comparison tolerance is
  modelled by the exact rational `TOL`.
* The global mutable dictionaries (`users`, `processed_orders`,
  `next_deposit_address`, `first_address_assigned`) become the fields of an
  explicit state record `LState`; each handler is a pure state transformer.
* Timestamps are integers (`int(now.timestamp())` in the source); sub-second
  parts do not affect any claim.
* Network effects (Telegram sends, NOWPayments replenishment calls) are
  modelled by boolean success parameters: the source wraps each such call in
  `try/except`, so the only observable effect is whether the code after the
  call runs.
* File persistence (`save_users` etc.) mirrors the in-memory state and is
  dropped: every claim is about the in-memory dictionaries.
-/

set_option maxRecDepth 10000

/-- The float tolerance `1e-9` of `deduct_balance`. -/
def TOL : ℚ := 1 / 1000000000

/-- Python `round(x, 8)` on exact rationals: round to the nearest multiple of
`10 ^ (-8)` (ties resolved upward in this model). -/
def round8 (q : ℚ) : ℚ := ((round (q * 100000000) : ℤ) : ℚ) / 100000000

/-- `q` is an exact multiple of `10 ^ (-8)` — every balance the program ever
stores has this form, because every mutation rounds to 8 decimal places. -/
def Mul8 (q : ℚ) : Prop := ∃ k : ℤ, q = (k : ℚ) / 100000000

/-- Conversational withdraw state stored on the user record. -/
inductive WState
  | address
  | amount
deriving DecidableEq

/-- A package record as built by `cb_package`. -/
structure Package where
  name : String
  price : ℚ
  daily : ℚ
  start_ts : ℤ
  end_ts : ℤ
  last_claim_date : Option String
deriving DecidableEq

/-- A user ledger record as created by `ensure_user`. -/
structure UserRec where
  balance : ℚ
  verified : Bool
  referrer_id : Option ℕ
  packages : List Package
  first_package_activated : Bool
  withdraw_state : Option WState
  withdraw_address : Option String
  deposit_address : Option String
deriving DecidableEq

/-- The default record `ensure_user` creates for a fresh user id. -/
def defaultUser (ref : Option ℕ) : UserRec :=
  { balance := 0, verified := false, referrer_id := ref, packages := [],
    first_package_activated := false, withdraw_state := none,
    withdraw_address := none, deposit_address := none }

/-- The global mutable state of the program. -/
@[ext]
structure LState where
  users : ℕ → Option UserRec
  processed : List String
  next_deposit_address : Option String
  first_address_assigned : Bool

/-- Store record `r` under key `uid` (dictionary update). -/
def setUser (s : LState) (uid : ℕ) (r : UserRec) : LState :=
  { s with users := fun v => if v = uid then some r else s.users v }

/-- The record stored for `uid`, defaulting to a fresh record (reads in the
source always run after `get_user`, which ensures the record exists). -/
def userOf (s : LState) (uid : ℕ) : UserRec := (s.users uid).getD (defaultUser none)

/-- Balance of `uid` (0 for an absent record). -/
def balOf (s : LState) (uid : ℕ) : ℚ := (userOf s uid).balance

/-- Deposit address of `uid` (none for an absent record). -/
def depositAddrOf (s : LState) (uid : ℕ) : Option String := (userOf s uid).deposit_address

/-- `first_package_activated` flag of `uid`. -/
def flagOf (s : LState) (uid : ℕ) : Bool := (userOf s uid).first_package_activated

/-- Python truthiness of an optional integer (`None` and `0` are falsy). -/
def refTruthy : Option ℕ → Bool
  | none => false
  | some n => n != 0

/-- `ensure_user`: create a default record, or set a missing referrer. -/
def ensure_user (s : LState) (uid : ℕ) (ref : Option ℕ) : LState :=
  match s.users uid with
  | none => setUser s uid (defaultUser ref)
  | some r =>
      if refTruthy ref && !(refTruthy r.referrer_id) then
        setUser s uid { r with referrer_id := ref }
      else s

/-- `add_balance`: credit `amount` to an existing record, rounding to 8 dp;
silently a no-op when the record is absent. -/
def add_balance (s : LState) (uid : ℕ) (amount : ℚ) : LState :=
  match s.users uid with
  | some r => setUser s uid { r with balance := round8 (r.balance + amount) }
  | none => s

/-- `deduct_balance`: debit `amount` when `cur + 1e-9 < amount` fails,
rounding to 8 dp; returns the success flag. -/
def deduct_balance (s : LState) (uid : ℕ) (amount : ℚ) : LState × Bool :=
  match s.users uid with
  | some r =>
      if r.balance + TOL < amount then (s, false)
      else (setUser s uid { r with balance := round8 (r.balance - amount) }, true)
  | none => (s, false)

/-- `append_package`: append a package to an existing record. -/
def append_package (s : LState) (uid : ℕ) (p : Package) : LState :=
  match s.users uid with
  | some r => setUser s uid { r with packages := r.packages ++ [p] }
  | none => s

/-- The fixed package table `PACKAGES = {10: 0.33, ..., 1000: 33.33}`. -/
def PACKAGES : List (ℕ × ℚ) :=
  [(10, 33/100), (20, 66/100), (50, 166/100), (100, 333/100),
   (200, 666/100), (500, 1666/100), (1000, 3333/100)]

/-- Dictionary lookup `PACKAGES[price]` (none when `price not in PACKAGES`). -/
def packageDaily (price : ℕ) : Option ℚ :=
  (PACKAGES.find? (fun e => e.1 == price)).map (fun e => e.2)

/-- `PACKAGE_DAYS = 60` expressed in seconds: `timedelta(days=60)`. -/
def PACKAGE_SECONDS : ℤ := 5184000

/-- `cb_package`: the package-selection callback.  `now` is the integer UNIX
timestamp `int(dt.datetime.now(dt.UTC).timestamp())`. -/
def cb_package (s : LState) (uid : ℕ) (price : ℕ) (now : ℤ) : LState :=
  let s1 := ensure_user s uid none
  let u := userOf s1 uid
  match packageDaily price with
  | none => s1
  | some daily =>
    if u.balance + TOL < (price : ℚ) then s1
    else
      let d := deduct_balance s1 uid (price : ℚ)
      if !d.2 then d.1
      else
        let pack : Package :=
          { name := toString price ++ " USDT", price := (price : ℚ), daily := daily,
            start_ts := now, end_ts := now + PACKAGE_SECONDS, last_claim_date := none }
        let s3 := append_package d.1 uid pack
        let u3 := userOf s3 uid
        if u3.first_package_activated then s3
        else
          let s4 :=
            if refTruthy u3.referrer_id then
              add_balance s3 (u3.referrer_id.getD 0) (round8 ((price : ℚ) * (1/10)))
            else s3
          setUser s4 uid { userOf s4 uid with first_package_activated := true }

/-- A package is active when `fromtimestamp(end_ts) > now`. -/
def activeB (now : ℤ) (p : Package) : Bool := decide (now < p.end_ts)

/-- A package earns today's payout when it is active and
`last_claim_date != today`. -/
def eligibleB (now : ℤ) (today : String) (p : Package) : Bool :=
  activeB now p && decide (p.last_claim_date ≠ some today)

/-- The loop body of `cmd_daily_reward`: stamp `last_claim_date = today` on an
eligible package. -/
def stampPack (now : ℤ) (today : String) (p : Package) : Package :=
  if eligibleB now today p then { p with last_claim_date := some today } else p

/-- `cmd_daily_reward`: credit the eligible packages' daily payouts and stamp
their `last_claim_date`; returns the credited amount (0 on the
"already claimed" and "no active packages" paths). -/
def cmd_daily_reward (s : LState) (uid : ℕ) (today : String) (now : ℤ) : LState × ℚ :=
  let s1 := ensure_user s uid none
  let u := userOf s1 uid
  if (u.packages.filter (activeB now)).isEmpty then (s1, 0)
  else
    let total : ℚ := ((u.packages.filter (eligibleB now today)).map Package.daily).sum
    let s2 := setUser s1 uid { u with packages := u.packages.map (stampPack now today) }
    if total ≤ 0 then (s2, 0)
    else (add_balance s2 uid (round8 total), round8 total)

/-- `MIN_WITHDRAWAL = 1.5`. -/
def MIN_WITHDRAWAL : ℚ := 3/2

/-- `handle_withdraw_input`: the free-text message handler.  `parsed` is the
result of `float(message_text)` (`none` models the `ValueError` path);
`sendOk` is whether the admin-channel send succeeds (the default
`ADMIN_CHANNEL_ID` is non-empty, so the send is always attempted). -/
def handle_withdraw_input (s : LState) (uid : ℕ) (text : String) (parsed : Option ℚ)
    (sendOk : Bool) : LState :=
  let s1 := ensure_user s uid none
  let u := userOf s1 uid
  match u.withdraw_state with
  | some WState.address =>
      setUser s1 uid { u with withdraw_state := some WState.amount,
                              withdraw_address := some text }
  | some WState.amount =>
      match parsed with
      | none => setUser s1 uid { u with withdraw_state := some WState.amount }
      | some amount =>
          if amount < MIN_WITHDRAWAL then
            setUser s1 uid { u with withdraw_state := none, withdraw_address := none }
          else
            let d := deduct_balance s1 uid amount
            if !d.2 then
              setUser d.1 uid { userOf d.1 uid with withdraw_state := none,
                                                    withdraw_address := none }
            else
              if sendOk then
                setUser d.1 uid { userOf d.1 uid with withdraw_state := none,
                                                      withdraw_address := none }
              else
                let s3 := add_balance d.1 uid amount
                setUser s3 uid { userOf s3 uid with withdraw_state := none,
                                                    withdraw_address := none }
  | none => s1

/-- `cmd_deposit`: assign the pending deposit address to an unaddressed user
and try to replenish the slot.  `replenishOk` is whether the
`nowpayments_create_payment` call succeeds; `newAddr` is the address it would
return (the configured-service guard is assumed satisfied). -/
def cmd_deposit (s : LState) (uid : ℕ) (replenishOk : Bool) (newAddr : String) : LState :=
  let s1 := ensure_user s uid none
  let u := userOf s1 uid
  match u.deposit_address with
  | some _ => s1
  | none =>
    match s1.next_deposit_address with
    | some a =>
        let s2 := setUser s1 uid { u with deposit_address := some a }
        let s3 :=
          if !s2.first_address_assigned then { s2 with first_address_assigned := true }
          else s2
        if replenishOk then { s3 with next_deposit_address := some newAddr } else s3
    | none => s1

/-- The digit string accepted by Python `int(...)` (sign, whitespace and
underscore forms are out of scope: order ids are produced as
`f"{user_id}-{int(time.time())}"`, so the prefix is a plain digit run). -/
def digitsToNat? (cs : List Char) : Option ℕ :=
  if cs ≠ [] ∧ cs.all (fun c => c.isDigit) then
    some (cs.foldl (fun n c => 10 * n + (c.toNat - 48)) 0)
  else none

/-- `int(str(order_id).split("-")[0])`: the user id embedded in an order id
(`none` models the `ValueError` on a non-numeric prefix). -/
def parseOrderUid (oid : String) : Option ℕ :=
  digitsToNat? (oid.data.takeWhile (fun c => c ≠ '-'))

/-- `ipn_nowpayments`: the payment-notification webhook.  `sigOk` is the HMAC
verification outcome, `status` the already-lowercased
`(data.payment_status or "").lower()`, `credited` the parsed
`actually_paid or pay_amount` value, and `sendOk` whether the Telegram
confirmation send succeeds (a failed send raises inside the `try`, skipping
the `processed_orders.add`). -/
def ipn_nowpayments (s : LState) (sigOk : Bool) (status : String) (credited : ℚ)
    (order_id : String) (pay_address : String) (sendOk : Bool) : LState :=
  if !sigOk then s
  else if (status = "finished" ∨ status = "confirmed") ∧ order_id ≠ "" ∧ 0 < credited then
    if order_id ∈ s.processed then s
    else
      match parseOrderUid order_id with
      | none => s
      | some tg =>
          let s1 := ensure_user s tg none
          let u := userOf s1 tg
          if u.deposit_address = some pay_address then
            let s2 := add_balance s1 tg credited
            if sendOk then { s2 with processed := order_id :: s2.processed } else s2
          else s1
  else s

/-- The ledger operations quantified over by the balance invariant claim. -/
inductive LOp
  | credit (uid : ℕ) (a : ℚ)
  | debit (uid : ℕ) (a : ℚ)
  | package (uid : ℕ) (price : ℕ) (now : ℤ)
  | claim (uid : ℕ) (today : String) (now : ℤ)

/-- Run one ledger operation. -/
def applyLOp (s : LState) : LOp → LState
  | .credit uid a => add_balance s uid a
  | .debit uid a => (deduct_balance s uid a).1
  | .package uid price now => cb_package s uid price now
  | .claim uid today now => (cmd_daily_reward s uid today now).1

/-- The source only ever calls `add_balance` with a non-negative amount. -/
def wfOp : LOp → Prop
  | .credit _ a => 0 ≤ a
  | _ => True

/-- The reachable-state invariant: balances are non-negative and every stored
package has a non-negative daily payout. -/
def BalInv (s : LState) : Prop :=
  ∀ uid r, s.users uid = some r → 0 ≤ r.balance ∧ ∀ p ∈ r.packages, 0 ≤ p.daily

/-- A state with a single user record. -/
def oneUserState (uid : ℕ) (r : UserRec) : LState :=
  { users := fun v => if v = uid then some r else none, processed := [],
    next_deposit_address := none, first_address_assigned := false }

/-- A state with two user records. -/
def twoUserState (a : ℕ) (ra : UserRec) (b : ℕ) (rb : UserRec) : LState :=
  { users := fun v => if v = a then some ra else if v = b then some rb else none,
    processed := [], next_deposit_address := none, first_address_assigned := false }

/-- Fixture: user 7 holding deposit address "ADDR". -/
def ipnUser : UserRec := { defaultUser none with deposit_address := some "ADDR" }

/-- Fixture: a ledger whose only user, 7, holds deposit address "ADDR". -/
def ipnState : LState := oneUserState 7 ipnUser

/-- Fixture: empty user map with pending deposit address "X". -/
def depState : LState :=
  { users := fun _ => none, processed := [], next_deposit_address := some "X",
    first_address_assigned := false }

/-- Fixture: a user mid-withdraw (awaiting the amount) with balance 10. -/
def wdUser : UserRec :=
  { defaultUser none with balance := 10, withdraw_state := some WState.amount,
                          withdraw_address := some "B" }

/-- Fixture: ledger whose only user, 1, is `wdUser`. -/
def wdState : LState := oneUserState 1 wdUser

/-- Fixture: buyer with balance 50 referred by user 9. -/
def buyerUser : UserRec := { defaultUser none with balance := 50, referrer_id := some 9 }

/-- Fixture: buyer 5 and their referrer 9. -/
def refState : LState := twoUserState 5 buyerUser 9 (defaultUser none)

/-- Fixture: user 1 with balance 0. -/
def zeroState : LState := oneUserState 1 (defaultUser none)

/-- Fixture: user 1 with balance 5. -/
def bal5State : LState := oneUserState 1 { defaultUser none with balance := 5 }

/-- Fixture: a credit followed by a debit for user 1. -/
def demoOps : List LOp := [LOp.credit 1 2, LOp.debit 1 3]

/-- Fixture: user 9 has balance 50 and names the absent user 3 as referrer. -/
def refAbsState : LState :=
  oneUserState 9 { defaultUser none with balance := 50, referrer_id := some 3 }

theorem round8_intMul (k : ℤ) : round8 ((k : ℚ) / 100000000) = (k : ℚ) / 100000000 := by
  unfold round8
  rw [div_mul_cancel₀ _ (by norm_num : (100000000 : ℚ) ≠ 0), round_intCast]

theorem Mul8.round8_eq {q : ℚ} (h : Mul8 q) : round8 q = q := by
  obtain ⟨k, rfl⟩ := h
  exact round8_intMul k

theorem round8_mul8 (q : ℚ) : Mul8 (round8 q) := ⟨round (q * 100000000), rfl⟩

theorem Mul8.add {a b : ℚ} (ha : Mul8 a) (hb : Mul8 b) : Mul8 (a + b) := by
  obtain ⟨j, rfl⟩ := ha
  obtain ⟨k, rfl⟩ := hb
  exact ⟨j + k, by push_cast; ring⟩

theorem Mul8.sub {a b : ℚ} (ha : Mul8 a) (hb : Mul8 b) : Mul8 (a - b) := by
  obtain ⟨j, rfl⟩ := ha
  obtain ⟨k, rfl⟩ := hb
  exact ⟨j - k, by push_cast; ring⟩

theorem Mul8.zero : Mul8 0 := ⟨0, by norm_num⟩

theorem Mul8.natCast (n : ℕ) : Mul8 (n : ℚ) :=
  ⟨(n : ℤ) * 100000000, by push_cast; ring⟩

theorem round8_nonneg {q : ℚ} (h : -TOL ≤ q) : 0 ≤ round8 q := by
  unfold round8
  have hz : (0 : ℤ) ≤ round (q * 100000000) := by
    rw [round_eq, Int.le_floor]
    unfold TOL at h
    push_cast
    linarith
  have : (0 : ℚ) ≤ ((round (q * 100000000) : ℤ) : ℚ) := by exact_mod_cast hz
  positivity

theorem round8_floor (q : ℚ) : round8 q = ((⌊q * 100000000 + 1/2⌋ : ℤ) : ℚ) / 100000000 := by
  rw [round8, round_eq]

theorem setUser_users_self (s : LState) (uid : ℕ) (r : UserRec) :
    (setUser s uid r).users uid = some r := by
  simp [setUser]

theorem setUser_users_ne (s : LState) {v uid : ℕ} (h : v ≠ uid) (r : UserRec) :
    (setUser s uid r).users v = s.users v := by
  simp [setUser, h]

theorem setUser_processed (s : LState) (uid : ℕ) (r : UserRec) :
    (setUser s uid r).processed = s.processed := rfl

theorem setUser_setUser (s : LState) (uid : ℕ) (a b : UserRec) :
    setUser (setUser s uid a) uid b = setUser s uid b := by
  cases s
  simp only [setUser]
  congr 1
  funext v
  by_cases hv : v = uid <;> simp [hv]

theorem setUser_self_eq {s : LState} {uid : ℕ} {r : UserRec} (h : s.users uid = some r) :
    setUser s uid r = s := by
  cases s
  simp only [setUser]
  congr 1
  funext v
  by_cases hv : v = uid
  · subst hv
    simpa using h.symm
  · simp [hv]

theorem userOf_setUser_self (s : LState) (uid : ℕ) (r : UserRec) :
    userOf (setUser s uid r) uid = r := by
  simp [userOf, setUser_users_self]

theorem userOf_setUser_ne (s : LState) {v uid : ℕ} (h : v ≠ uid) (r : UserRec) :
    userOf (setUser s uid r) v = userOf s v := by
  simp [userOf, setUser_users_ne s h]

theorem ensure_user_existing {s : LState} {uid : ℕ} {r : UserRec}
    (h : s.users uid = some r) : ensure_user s uid none = s := by
  simp [ensure_user, h, refTruthy]

theorem ensure_user_absent {s : LState} {uid : ℕ} (ref : Option ℕ)
    (h : s.users uid = none) : ensure_user s uid ref = setUser s uid (defaultUser ref) := by
  simp [ensure_user, h]

theorem ensure_user_users_self (s : LState) (uid : ℕ) :
    (ensure_user s uid none).users uid = some (userOf s uid) := by
  cases h : s.users uid with
  | none => rw [ensure_user_absent none h, setUser_users_self, userOf, h]; rfl
  | some r => rw [ensure_user_existing h, userOf, h]; rfl

theorem ensure_user_idem (s : LState) (uid : ℕ) :
    ensure_user (ensure_user s uid none) uid none = ensure_user s uid none :=
  ensure_user_existing (ensure_user_users_self s uid)

theorem ensure_user_processed (s : LState) (uid : ℕ) (ref : Option ℕ) :
    (ensure_user s uid ref).processed = s.processed := by
  unfold ensure_user
  cases s.users uid <;> simp only []
  · rfl
  · split <;> rfl

theorem userOf_ensure_self (s : LState) (uid : ℕ) :
    userOf (ensure_user s uid none) uid = userOf s uid := by
  simp [userOf, ensure_user_users_self]

theorem add_balance_absent {s : LState} {uid : ℕ} (a : ℚ) (h : s.users uid = none) :
    add_balance s uid a = s := by
  simp [add_balance, h]

theorem add_balance_present {s : LState} {uid : ℕ} {r : UserRec} (a : ℚ)
    (h : s.users uid = some r) :
    add_balance s uid a = setUser s uid { r with balance := round8 (r.balance + a) } := by
  simp [add_balance, h]

theorem add_balance_users_ne (s : LState) {v uid : ℕ} (h : v ≠ uid) (a : ℚ) :
    (add_balance s uid a).users v = s.users v := by
  unfold add_balance
  cases s.users uid
  · rfl
  · exact setUser_users_ne s h _

theorem deduct_balance_success {s : LState} {uid : ℕ} {r : UserRec} {a : ℚ}
    (h : s.users uid = some r) (hs : ¬ (r.balance + TOL < a)) :
    deduct_balance s uid a = (setUser s uid { r with balance := round8 (r.balance - a) }, true) := by
  simp [deduct_balance, h, hs]

theorem deduct_balance_true_iff {s : LState} {uid : ℕ} {r : UserRec} (a : ℚ)
    (h : s.users uid = some r) :
    (deduct_balance s uid a).2 = true ↔ ¬ (r.balance + TOL < a) := by
  simp only [deduct_balance, h]
  split <;> simp_all

theorem deduct_balance_absent {s : LState} {uid : ℕ} (a : ℚ) (h : s.users uid = none) :
    deduct_balance s uid a = (s, false) := by
  simp [deduct_balance, h]

theorem append_package_present {s : LState} {uid : ℕ} {r : UserRec} (p : Package)
    (h : s.users uid = some r) :
    append_package s uid p = setUser s uid { r with packages := r.packages ++ [p] } := by
  simp [append_package, h]

theorem packageDaily_nonneg {price : ℕ} {d : ℚ} (h : packageDaily price = some d) : 0 ≤ d := by
  unfold packageDaily at h
  cases hf : PACKAGES.find? (fun e => e.1 == price) with
  | none => rw [hf] at h; cases h
  | some e =>
      rw [hf] at h
      have he : e ∈ PACKAGES := List.mem_of_find?_eq_some hf
      have hd : e.2 = d := by simpa using h
      rw [← hd]
      simp only [PACKAGES, List.mem_cons, List.not_mem_nil, or_false] at he
      rcases he with rfl | rfl | rfl | rfl | rfl | rfl | rfl <;> norm_num

theorem TOL_pos : 0 < TOL := by norm_num [TOL]

theorem round8_nonneg_of_nonneg {q : ℚ} (h : 0 ≤ q) : 0 ≤ round8 q :=
  round8_nonneg (le_trans (by have := TOL_pos; linarith) h)

theorem balInv_userOf {s : LState} (hs : BalInv s) (uid : ℕ) :
    0 ≤ (userOf s uid).balance ∧ ∀ p ∈ (userOf s uid).packages, 0 ≤ p.daily := by
  cases h : s.users uid with
  | none => simp [userOf, h, defaultUser]
  | some r => simpa [userOf, h] using hs uid r h

theorem balInv_setUser {s : LState} {uid : ℕ} {r : UserRec} (hs : BalInv s)
    (hb : 0 ≤ r.balance) (hp : ∀ p ∈ r.packages, 0 ≤ p.daily) :
    BalInv (setUser s uid r) := by
  intro v q hq
  by_cases hv : v = uid
  · subst hv
    rw [setUser_users_self] at hq
    cases hq
    exact ⟨hb, hp⟩
  · rw [setUser_users_ne s hv] at hq
    exact hs v q hq

theorem balInv_ensure {s : LState} (hs : BalInv s) (uid : ℕ) (ref : Option ℕ) :
    BalInv (ensure_user s uid ref) := by
  cases h : s.users uid with
  | none =>
      rw [ensure_user_absent ref h]
      exact balInv_setUser hs (by simp [defaultUser]) (by simp [defaultUser])
  | some r =>
      simp only [ensure_user, h]
      split
      · exact balInv_setUser hs (hs uid r h).1 (hs uid r h).2
      · exact hs

theorem balInv_add {s : LState} {uid : ℕ} {a : ℚ} (hs : BalInv s) (ha : 0 ≤ a) :
    BalInv (add_balance s uid a) := by
  unfold add_balance
  cases h : s.users uid with
  | none => exact hs
  | some r =>
      refine balInv_setUser hs ?_ (hs uid r h).2
      exact round8_nonneg_of_nonneg (by have := (hs uid r h).1; linarith)

theorem balInv_deduct {s : LState} {uid : ℕ} {a : ℚ} (hs : BalInv s) :
    BalInv (deduct_balance s uid a).1 := by
  cases h : s.users uid with
  | none => rw [deduct_balance_absent a h]; exact hs
  | some r =>
      simp only [deduct_balance, h]
      split
      · exact hs
      · next hlt =>
          refine balInv_setUser hs ?_ (hs uid r h).2
          exact round8_nonneg (by push_neg at hlt; linarith)

theorem balInv_cb {s : LState} (hs : BalInv s) (uid price : ℕ) (now : ℤ) :
    BalInv (cb_package s uid price now) := by
  unfold cb_package
  have h1 : BalInv (ensure_user s uid none) := balInv_ensure hs uid none
  cases hd : packageDaily price with
  | none => exact h1
  | some daily =>
      simp only []
      split
      · exact h1
      · split
        · exact balInv_deduct h1
        · have h2 : BalInv (deduct_balance (ensure_user s uid none) uid (price : ℚ)).1 :=
            balInv_deduct h1
          set s2 := (deduct_balance (ensure_user s uid none) uid (price : ℚ)).1 with hs2
          have h3 : BalInv (append_package s2 uid
              { name := toString price ++ " USDT", price := (price : ℚ), daily := daily,
                start_ts := now, end_ts := now + PACKAGE_SECONDS, last_claim_date := none }) := by
            unfold append_package
            cases hu : s2.users uid with
            | none => exact h2
            | some r =>
                refine balInv_setUser h2 (h2 uid r hu).1 ?_
                intro p hp
                simp only [List.mem_append, List.mem_singleton] at hp
                rcases hp with hp | rfl
                · exact (h2 uid r hu).2 p hp
                · exact packageDaily_nonneg hd
          set s3 := append_package s2 uid _ with hs3
          split
          · exact h3
          · have h4 : BalInv (if refTruthy (userOf s3 uid).referrer_id = true then
                add_balance s3 ((userOf s3 uid).referrer_id.getD 0)
                  (round8 ((price : ℚ) * (1/10)))
              else s3) := by
              split
              · exact balInv_add h3 (round8_nonneg_of_nonneg (by positivity))
              · exact h3
            set s4 := (if refTruthy (userOf s3 uid).referrer_id = true then
                add_balance s3 ((userOf s3 uid).referrer_id.getD 0)
                  (round8 ((price : ℚ) * (1/10)))
              else s3) with hs4
            exact balInv_setUser h4 (balInv_userOf h4 uid).1 (balInv_userOf h4 uid).2

theorem stampPack_daily (now : ℤ) (today : String) (p : Package) :
    (stampPack now today p).daily = p.daily := by
  unfold stampPack
  split <;> rfl

theorem stampPack_end_ts (now : ℤ) (today : String) (p : Package) :
    (stampPack now today p).end_ts = p.end_ts := by
  unfold stampPack
  split <;> rfl

theorem activeB_stamp (now : ℤ) (today : String) (p : Package) :
    activeB now (stampPack now today p) = activeB now p := by
  simp [activeB, stampPack_end_ts]

theorem eligibleB_stamp (now : ℤ) (today : String) (p : Package) :
    eligibleB now today (stampPack now today p) = false := by
  unfold stampPack
  split
  · next h => simp [eligibleB]
  · next h => simpa using h

theorem stampPack_idem (now : ℤ) (today : String) (p : Package) :
    stampPack now today (stampPack now today p) = stampPack now today p := by
  conv_lhs => rw [stampPack, eligibleB_stamp]
  simp

theorem claim_total_nonneg {s : LState} (hs : BalInv s) (uid : ℕ) (today : String) (now : ℤ) :
    0 ≤ (((userOf (ensure_user s uid none) uid).packages.filter
      (eligibleB now today)).map Package.daily).sum := by
  apply List.sum_nonneg
  intro x hx
  obtain ⟨p, hp, rfl⟩ := List.mem_map.1 hx
  have hmem : p ∈ (userOf (ensure_user s uid none) uid).packages := (List.mem_filter.1 hp).1
  exact (balInv_userOf (balInv_ensure hs uid none) uid).2 p hmem

theorem balInv_claim {s : LState} (hs : BalInv s) (uid : ℕ) (today : String) (now : ℤ) :
    BalInv (cmd_daily_reward s uid today now).1 := by
  unfold cmd_daily_reward
  simp only []
  have h1 : BalInv (ensure_user s uid none) := balInv_ensure hs uid none
  split
  · exact h1
  · have hu := balInv_userOf h1 uid
    have h2 : BalInv (setUser (ensure_user s uid none) uid
        { userOf (ensure_user s uid none) uid with
          packages := (userOf (ensure_user s uid none) uid).packages.map
            (stampPack now today) }) := by
      refine balInv_setUser h1 hu.1 ?_
      intro p hp
      obtain ⟨q, hq, rfl⟩ := List.mem_map.1 hp
      rw [stampPack_daily]
      exact hu.2 q hq
    split
    · exact h2
    · exact balInv_add h2
        (round8_nonneg_of_nonneg (claim_total_nonneg hs uid today now))

theorem balInv_applyLOp {s : LState} {op : LOp} (hs : BalInv s) (hwf : wfOp op) :
    BalInv (applyLOp s op) := by
  cases op with
  | credit uid a => exact balInv_add hs hwf
  | debit uid a => exact balInv_deduct hs
  | package uid price now => exact balInv_cb hs uid price now
  | claim uid today now => exact balInv_claim hs uid today now

theorem balInv_foldl {ops : List LOp} {s : LState} (hs : BalInv s)
    (hwf : ∀ op ∈ ops, wfOp op) : BalInv (ops.foldl applyLOp s) := by
  induction ops generalizing s with
  | nil => exact hs
  | cons op rest ih =>
      exact ih (balInv_applyLOp hs (hwf op (by simp)))
        (fun o ho => hwf o (by simp [ho]))

/-- Sharable form of the initial-state invariant for states with one record. -/
theorem balInv_oneUser {uid : ℕ} {r : UserRec} (hb : 0 ≤ r.balance)
    (hp : ∀ p ∈ r.packages, 0 ≤ p.daily) : BalInv (oneUserState uid r) := by
  intro v q hq
  simp only [oneUserState] at hq
  by_cases hv : v = uid
  · rw [if_pos hv] at hq
    cases hq
    exact ⟨hb, hp⟩
  · rw [if_neg hv] at hq
    cases hq

theorem filter_eq_nil_of_false {α : Type} {p : α → Bool} {l : List α}
    (h : ∀ a ∈ l, p a = false) : l.filter p = [] := by
  induction l with
  | nil => rfl
  | cons a t ih =>
      rw [List.filter_cons, h a (by simp)]
      exact ih (fun b hb => h b (by simp [hb]))

theorem map_eq_self_of {α : Type} {f : α → α} {l : List α} (h : ∀ a ∈ l, f a = a) :
    l.map f = l := by
  induction l with
  | nil => rfl
  | cons a t ih =>
      rw [List.map_cons, h a (by simp), ih (fun b hb => h b (by simp [hb]))]

/-- A second `cmd_daily_reward` on a state whose active packages are all
stamped with today's date is a complete no-op crediting 0. -/
theorem cmd_daily_reward_noop {t : LState} {uid : ℕ} {w : UserRec} {today : String} {now : ℤ}
    (hu : t.users uid = some w)
    (hstamped : ∀ p ∈ w.packages, activeB now p = true → p.last_claim_date = some today) :
    cmd_daily_reward t uid today now = (t, 0) := by
  simp only [cmd_daily_reward]
  rw [ensure_user_existing hu]
  have huo : userOf t uid = w := by simp [userOf, hu]
  rw [huo]
  by_cases hA : (w.packages.filter (activeB now)).isEmpty
  · rw [if_pos hA]
  · rw [if_neg hA]
    have helig : ∀ p ∈ w.packages, eligibleB now today p = false := by
      intro p hp
      unfold eligibleB
      cases hact : activeB now p
      · simp
      · simp [hstamped p hp hact]
    have hfil : w.packages.filter (eligibleB now today) = [] := filter_eq_nil_of_false helig
    have hstampid : w.packages.map (stampPack now today) = w.packages := by
      apply map_eq_self_of
      intro p hp
      unfold stampPack
      rw [helig p hp]
      simp
    rw [hfil, hstampid]
    simp only [List.map_nil, List.sum_nil, le_refl, if_pos]
    rw [show ({ w with packages := w.packages }) = w from rfl, setUser_self_eq hu]

/-- After one `cmd_daily_reward`, every active package of the user carries
today's `last_claim_date`. -/
theorem cmd_daily_reward_post (s : LState) (uid : ℕ) (today : String) (now : ℤ) :
    ∃ w, (cmd_daily_reward s uid today now).1.users uid = some w ∧
      ∀ p ∈ w.packages, activeB now p = true → p.last_claim_date = some today := by
  simp only [cmd_daily_reward]
  have husers : (ensure_user s uid none).users uid = some (userOf s uid) :=
    ensure_user_users_self s uid
  have huo : userOf (ensure_user s uid none) uid = userOf s uid :=
    userOf_ensure_self s uid
  by_cases hA : ((userOf (ensure_user s uid none) uid).packages.filter (activeB now)).isEmpty
  · rw [if_pos hA]
    refine ⟨userOf s uid, husers, ?_⟩
    intro p hp hact
    exfalso
    have hmem : p ∈ (userOf s uid).packages.filter (activeB now) :=
      List.mem_filter.2 ⟨hp, hact⟩
    rw [huo, List.isEmpty_iff] at hA
    rw [hA] at hmem
    cases hmem
  · rw [if_neg hA]
    have hpost : ∀ p' ∈ (userOf (ensure_user s uid none) uid).packages.map (stampPack now today),
        activeB now p' = true → p'.last_claim_date = some today := by
      intro p' hp' hact
      obtain ⟨p, hp, rfl⟩ := List.mem_map.1 hp'
      rw [activeB_stamp] at hact
      unfold stampPack
      by_cases he : eligibleB now today p = true
      · rw [if_pos he]
      · rw [if_neg he]
        unfold eligibleB at he
        simp only [hact, Bool.true_and, decide_eq_true_eq, Decidable.not_not] at he
        simpa using he
    split
    · exact ⟨_, setUser_users_self _ _ _, hpost⟩
    · rw [add_balance_present _ (setUser_users_self _ _ _), setUser_setUser]
      exact ⟨_, setUser_users_self _ _ _, hpost⟩

theorem userOf_present {s : LState} {uid : ℕ} {u : UserRec} (hu : s.users uid = some u) :
    userOf s uid = u := by
  simp [userOf, hu]

/-- Successful activation, case: first package already activated. -/
theorem cb_package_success_flagged {s : LState} {uid : ℕ} {u : UserRec} {price : ℕ} {d : ℚ}
    (now : ℤ) (hu : s.users uid = some u) (hd : packageDaily price = some d)
    (hsuff : ¬ (u.balance + TOL < (price : ℚ))) (hflag : u.first_package_activated = true) :
    cb_package s uid price now =
      setUser s uid
        { u with balance := round8 (u.balance - (price : ℚ)),
                 packages := u.packages ++
                   [{ name := toString price ++ " USDT", price := (price : ℚ), daily := d,
                      start_ts := now, end_ts := now + PACKAGE_SECONDS,
                      last_claim_date := none }] } := by
  simp only [cb_package, hd]
  rw [ensure_user_existing hu, userOf_present hu, if_neg hsuff,
    deduct_balance_success hu hsuff]
  simp only [Bool.not_true, Bool.false_eq_true, if_false]
  rw [append_package_present _ (setUser_users_self s uid _), setUser_setUser,
    userOf_setUser_self]
  simp only [hflag, if_true]

/-- Successful first activation with no (truthy) referrer. -/
theorem cb_package_success_noref {s : LState} {uid : ℕ} {u : UserRec} {price : ℕ} {d : ℚ}
    (now : ℤ) (hu : s.users uid = some u) (hd : packageDaily price = some d)
    (hsuff : ¬ (u.balance + TOL < (price : ℚ))) (hflag : u.first_package_activated = false)
    (href : refTruthy u.referrer_id = false) :
    cb_package s uid price now =
      setUser s uid
        { u with balance := round8 (u.balance - (price : ℚ)),
                 packages := u.packages ++
                   [{ name := toString price ++ " USDT", price := (price : ℚ), daily := d,
                      start_ts := now, end_ts := now + PACKAGE_SECONDS,
                      last_claim_date := none }],
                 first_package_activated := true } := by
  simp only [cb_package, hd]
  rw [ensure_user_existing hu, userOf_present hu, if_neg hsuff,
    deduct_balance_success hu hsuff]
  simp only [Bool.not_true, Bool.false_eq_true, if_false]
  rw [append_package_present _ (setUser_users_self s uid _), setUser_setUser,
    userOf_setUser_self]
  simp only [hflag, href, Bool.false_eq_true, if_false, userOf_setUser_self]
  rw [setUser_setUser]

/-- Successful first activation with a truthy referrer whose record exists. -/
theorem cb_package_success_ref {s : LState} {uid rid : ℕ} {u r : UserRec} {price : ℕ} {d : ℚ}
    (now : ℤ) (hu : s.users uid = some u) (hd : packageDaily price = some d)
    (hsuff : ¬ (u.balance + TOL < (price : ℚ))) (hflag : u.first_package_activated = false)
    (href : u.referrer_id = some rid) (hrid0 : rid ≠ 0) (hne : rid ≠ uid)
    (hr : s.users rid = some r) :
    cb_package s uid price now =
      setUser
        (setUser (setUser s uid
          { u with balance := round8 (u.balance - (price : ℚ)),
                   packages := u.packages ++
                     [{ name := toString price ++ " USDT", price := (price : ℚ), daily := d,
                        start_ts := now, end_ts := now + PACKAGE_SECONDS,
                        last_claim_date := none }] })
          rid { r with balance := round8 (r.balance + round8 ((price : ℚ) * (1/10))) })
        uid
        { u with balance := round8 (u.balance - (price : ℚ)),
                 packages := u.packages ++
                   [{ name := toString price ++ " USDT", price := (price : ℚ), daily := d,
                      start_ts := now, end_ts := now + PACKAGE_SECONDS,
                      last_claim_date := none }],
                 first_package_activated := true } := by
  simp only [cb_package, hd]
  rw [ensure_user_existing hu, userOf_present hu, if_neg hsuff,
    deduct_balance_success hu hsuff]
  simp only [Bool.not_true, Bool.false_eq_true, if_false]
  rw [append_package_present _ (setUser_users_self s uid _), setUser_setUser,
    userOf_setUser_self]
  simp only [hflag, href, Bool.false_eq_true, if_false, refTruthy, Option.getD_some]
  rw [if_pos (by simpa using hrid0)]
  rw [add_balance_present _ (by rw [setUser_users_ne s hne]; exact hr)]
  rw [userOf_setUser_ne _ (Ne.symm hne), userOf_setUser_self]

/-- Successful first activation whose truthy referrer has no ledger record:
the bonus `add_balance` is silently a no-op. -/
theorem cb_package_success_refAbsent {s : LState} {uid rid : ℕ} {u : UserRec} {price : ℕ}
    {d : ℚ} (now : ℤ) (hu : s.users uid = some u) (hd : packageDaily price = some d)
    (hsuff : ¬ (u.balance + TOL < (price : ℚ))) (hflag : u.first_package_activated = false)
    (href : u.referrer_id = some rid) (hrid0 : rid ≠ 0) (hne : rid ≠ uid)
    (hr : s.users rid = none) :
    cb_package s uid price now =
      setUser s uid
        { u with balance := round8 (u.balance - (price : ℚ)),
                 packages := u.packages ++
                   [{ name := toString price ++ " USDT", price := (price : ℚ), daily := d,
                      start_ts := now, end_ts := now + PACKAGE_SECONDS,
                      last_claim_date := none }],
                 first_package_activated := true } := by
  simp only [cb_package, hd]
  rw [ensure_user_existing hu, userOf_present hu, if_neg hsuff,
    deduct_balance_success hu hsuff]
  simp only [Bool.not_true, Bool.false_eq_true, if_false]
  rw [append_package_present _ (setUser_users_self s uid _), setUser_setUser,
    userOf_setUser_self]
  simp only [hflag, href, Bool.false_eq_true, if_false, refTruthy, Option.getD_some]
  rw [if_pos (by simpa using hrid0)]
  rw [add_balance_absent _ (by rw [setUser_users_ne s hne]; exact hr),
    userOf_setUser_self, setUser_setUser]

/-- `price not in PACKAGES`: nothing but `get_user` happens. -/
theorem cb_package_invalid {s : LState} {uid price : ℕ} (now : ℤ)
    (hd : packageDaily price = none) :
    cb_package s uid price now = ensure_user s uid none := by
  simp only [cb_package, hd]

/-- Insufficient balance: nothing but `get_user` happens. -/
theorem cb_package_insufficient {s : LState} {uid : ℕ} {u : UserRec} {price : ℕ} {d : ℚ}
    (now : ℤ) (hu : s.users uid = some u) (hd : packageDaily price = some d)
    (hins : u.balance + TOL < (price : ℚ)) :
    cb_package s uid price now = s := by
  simp only [cb_package, hd]
  rw [ensure_user_existing hu, userOf_present hu, if_pos hins]

/-- Once `first_package_activated` is set, `cb_package` touches no other
user's record and keeps the flag set. -/
theorem cb_package_flagged {s : LState} {uid : ℕ} {u : UserRec} (price : ℕ) (now : ℤ)
    (hu : s.users uid = some u) (hflag : u.first_package_activated = true) :
    (∀ v, v ≠ uid → (cb_package s uid price now).users v = s.users v) ∧
      flagOf (cb_package s uid price now) uid = true := by
  cases hd : packageDaily price with
  | none =>
      rw [cb_package_invalid now hd, ensure_user_existing hu]
      exact ⟨fun v _ => rfl, by simp [flagOf, userOf_present hu, hflag]⟩
  | some d =>
      by_cases hins : u.balance + TOL < (price : ℚ)
      · rw [cb_package_insufficient now hu hd hins]
        exact ⟨fun v _ => rfl, by simp [flagOf, userOf_present hu, hflag]⟩
      · rw [cb_package_success_flagged now hu hd hins hflag]
        constructor
        · intro v hv
          exact setUser_users_ne s hv _
        · simp [flagOf, userOf_setUser_self, hflag]

/-- Folding further activations over a flagged user changes no other record. -/
theorem cb_foldl_flagged {uid v : ℕ} (hv : v ≠ uid) :
    ∀ (l : List (ℕ × ℤ)) (s : LState), flagOf s uid = true →
      ((l.foldl (fun st pr => cb_package st uid pr.1 pr.2) s).users v = s.users v ∧
        flagOf (l.foldl (fun st pr => cb_package st uid pr.1 pr.2) s) uid = true) := by
  intro l
  induction l with
  | nil => exact fun s hs => ⟨rfl, hs⟩
  | cons pr rest ih =>
      intro s hs
      have hupres : ∃ u, s.users uid = some u ∧ u.first_package_activated = true := by
        cases h : s.users uid with
        | none => rw [flagOf, userOf, h] at hs; simp [defaultUser] at hs
        | some u => exact ⟨u, rfl, by rwa [flagOf, userOf_present h] at hs⟩
      obtain ⟨u, hu, huf⟩ := hupres
      have hstep := cb_package_flagged pr.1 pr.2 hu huf
      have hrest := ih (cb_package s uid pr.1 pr.2) hstep.2
      refine ⟨?_, by simpa using hrest.2⟩
      calc (List.foldl (fun st pr => cb_package st uid pr.1 pr.2) (cb_package s uid pr.1 pr.2)
              rest).users v
      _ = (cb_package s uid pr.1 pr.2).users v := hrest.1
      _ = s.users v := hstep.1 v hv

theorem setUser_preserves_none {s : LState} {v uid : ℕ} (hv : v ≠ uid) (r : UserRec)
    (h : s.users v = none) : (setUser s uid r).users v = none := by
  rw [setUser_users_ne s hv]; exact h

theorem ensure_preserves_none {s : LState} {v uid : ℕ} (hv : v ≠ uid) (ref : Option ℕ)
    (h : s.users v = none) : (ensure_user s uid ref).users v = none := by
  cases hq : s.users uid with
  | none =>
      rw [ensure_user_absent ref hq]
      exact setUser_preserves_none hv _ h
  | some r =>
      simp only [ensure_user, hq]
      split
      · exact setUser_preserves_none hv _ h
      · exact h

theorem add_balance_preserves_none {s : LState} {v w : ℕ} (a : ℚ)
    (h : s.users v = none) : (add_balance s w a).users v = none := by
  by_cases hw : v = w
  · subst hw
    rw [add_balance_absent a h]
    exact h
  · rw [add_balance_users_ne s hw]
    exact h

theorem deduct_preserves_none {s : LState} {v w : ℕ} (a : ℚ)
    (h : s.users v = none) : ((deduct_balance s w a).1).users v = none := by
  by_cases hw : v = w
  · subst hw
    rw [deduct_balance_absent a h]
    exact h
  · cases hq : s.users w with
    | none => rw [deduct_balance_absent a hq]; exact h
    | some r =>
        simp only [deduct_balance, hq]
        split
        · exact h
        · exact setUser_preserves_none hw _ h

theorem append_preserves_none {s : LState} {v w : ℕ} (p : Package)
    (h : s.users v = none) : (append_package s w p).users v = none := by
  by_cases hw : v = w
  · subst hw
    simp only [append_package, h]
  · cases hq : s.users w with
    | none => simp only [append_package, hq]; exact h
    | some r =>
        simp only [append_package, hq]
        exact setUser_preserves_none hw _ h

/-- `cb_package` never creates a record for an id other than the buyer:
an absent record (e.g. a referrer with no ledger entry) stays absent. -/
theorem cb_package_preserves_none {s : LState} {v uid : ℕ} (hv : v ≠ uid)
    (price : ℕ) (now : ℤ) (h : s.users v = none) :
    (cb_package s uid price now).users v = none := by
  unfold cb_package
  have h1 : (ensure_user s uid none).users v = none := ensure_preserves_none hv none h
  cases packageDaily price with
  | none => exact h1
  | some d =>
      simp only []
      split
      · exact h1
      · split
        · exact deduct_preserves_none _ h1
        · have h2 := deduct_preserves_none (w := uid) ((price : ℕ) : ℚ) h1
          have h3 := append_preserves_none (w := uid)
            { name := toString price ++ " USDT", price := (price : ℚ), daily := d,
              start_ts := now, end_ts := now + PACKAGE_SECONDS, last_claim_date := none } h2
          split
          · exact h3
          · apply setUser_preserves_none hv
            split
            · exact add_balance_preserves_none _ h3
            · exact h3

theorem ensure_depositAddr (s : LState) (uid : ℕ) :
    depositAddrOf (ensure_user s uid none) uid = depositAddrOf s uid := by
  simp [depositAddrOf, userOf_ensure_self]

theorem ensure_balOf (s : LState) (uid : ℕ) (ref : Option ℕ) :
    ∀ v, balOf (ensure_user s uid ref) v = balOf s v := by
  intro v
  cases h : s.users uid with
  | none =>
      rw [ensure_user_absent ref h]
      by_cases hv : v = uid
      · subst hv
        rw [balOf, balOf, userOf_setUser_self, userOf, h]
        simp [defaultUser]
      · rw [balOf, balOf, userOf_setUser_ne s hv]
  | some r =>
      simp only [ensure_user, h]
      split
      · by_cases hv : v = uid
        · subst hv
          rw [balOf, balOf, userOf_setUser_self, userOf, h]
          rfl
        · rw [balOf, balOf, userOf_setUser_ne s hv]
      · rfl

/-- C2: `deduct_balance` succeeds exactly when the balance is sufficient up to
the `1e-9` tolerance, and after any sequence of credit/debit/package/claim
operations from an invariant-respecting state every user's balance is
non-negative. -/
theorem deduct_sufficiency_and_nonneg_invariant
    (s : LState) (ops : List LOp) (hinv : BalInv s) (hwf : ∀ op ∈ ops, wfOp op) :
    (∀ uid a r, s.users uid = some r →
      ((deduct_balance s uid a).2 = true ↔ ¬ (r.balance + TOL < a))) ∧
    ∀ uid, 0 ≤ balOf (ops.foldl applyLOp s) uid := by
  constructor
  · intro uid a r h
    exact deduct_balance_true_iff a h
  · intro uid
    exact (balInv_userOf (balInv_foldl hinv hwf) uid).1

/-- Witness for C2 at a concrete state and operation list. -/
theorem deduct_sufficiency_and_nonneg_invariant_witness :
    ((deduct_balance bal5State 1 3).2 = true ↔
      ¬ ((userOf bal5State 1).balance + TOL < 3)) ∧
    0 ≤ balOf (demoOps.foldl applyLOp bal5State) 1 := by
  have h := deduct_sufficiency_and_nonneg_invariant bal5State demoOps
    (balInv_oneUser (by norm_num [defaultUser]) (by simp [defaultUser]))
    (by
      intro op hop
      simp only [demoOps, List.mem_cons, List.not_mem_nil, or_false] at hop
      rcases hop with rfl | rfl <;> norm_num [wfOp])
  exact ⟨h.1 1 3 (userOf bal5State 1) rfl, h.2 1⟩

/-- C4: on a referred user's first successful activation the referrer is
credited `round(price * 0.10, 8)` exactly once, `first_package_activated`
flips to true, and any further activations leave the referrer's balance
unchanged. -/
theorem referral_bonus_exactly_once
    (s : LState) (uid rid : ℕ) (u r : UserRec) (price : ℕ) (d : ℚ) (now : ℤ)
    (hu : s.users uid = some u) (hflag : u.first_package_activated = false)
    (href : u.referrer_id = some rid) (hrid0 : rid ≠ 0) (hne : rid ≠ uid)
    (hr : s.users rid = some r) (hm : Mul8 r.balance)
    (hd : packageDaily price = some d) (hsuff : ¬ (u.balance + TOL < (price : ℚ))) :
    balOf (cb_package s uid price now) rid = r.balance + round8 ((price : ℚ) * (1/10)) ∧
    flagOf (cb_package s uid price now) uid = true ∧
    ∀ rest : List (ℕ × ℤ),
      balOf (rest.foldl (fun st pr => cb_package st uid pr.1 pr.2)
        (cb_package s uid price now)) rid = r.balance + round8 ((price : ℚ) * (1/10)) := by
  have heq := cb_package_success_ref now hu hd hsuff hflag href hrid0 hne hr
  have hbal : balOf (cb_package s uid price now) rid
      = r.balance + round8 ((price : ℚ) * (1/10)) := by
    rw [heq, balOf, userOf_setUser_ne _ hne, userOf_setUser_self]
    exact (hm.add (round8_mul8 _)).round8_eq
  have hflag2 : flagOf (cb_package s uid price now) uid = true := by
    rw [heq, flagOf, userOf_setUser_self]
  refine ⟨hbal, hflag2, ?_⟩
  intro rest
  have hfold := cb_foldl_flagged hne rest (cb_package s uid price now) hflag2
  rw [balOf, userOf, hfold.1, ← userOf, ← balOf]
  exact hbal

/-- Witness for C4: buyer 5 activates the 50 package twice; referrer 9 is
credited 5 once. -/
theorem referral_bonus_exactly_once_witness :
    balOf (cb_package refState 5 50 0) 9
        = (defaultUser none).balance + round8 (((50 : ℕ) : ℚ) * (1/10)) ∧
    flagOf (cb_package refState 5 50 0) 5 = true ∧
    balOf (List.foldl (fun st pr => cb_package st 5 pr.1 pr.2) (cb_package refState 5 50 0)
      [((50 : ℕ), (100 : ℤ))]) 9
        = (defaultUser none).balance + round8 (((50 : ℕ) : ℚ) * (1/10)) := by
  have h := referral_bonus_exactly_once refState 5 9 buyerUser (defaultUser none) 50 (166/100) 0
    rfl rfl rfl (by decide) (by decide) rfl Mul8.zero rfl
    (by norm_num [buyerUser, defaultUser, TOL])
  exact ⟨h.1, h.2.1, h.2.2 [(50, 100)]⟩

/-- C5: a successful activation of a valid denomination deducts exactly the
price and appends one package whose term is exactly 60 days (5184000 s); an
invalid denomination or insufficient balance changes nothing. -/
theorem package_activation_exact
    (s : LState) (uid : ℕ) (u : UserRec) (now : ℤ)
    (hu : s.users uid = some u) (hm : Mul8 u.balance)
    (hself : u.referrer_id ≠ some uid) :
    (∀ price d, packageDaily price = some d → ¬ (u.balance + TOL < (price : ℚ)) →
      balOf (cb_package s uid price now) uid = u.balance - (price : ℚ) ∧
      (userOf (cb_package s uid price now) uid).packages =
        u.packages ++ [{ name := toString price ++ " USDT", price := (price : ℚ),
                          daily := d, start_ts := now, end_ts := now + PACKAGE_SECONDS,
                          last_claim_date := none }] ∧
      (now + PACKAGE_SECONDS) - now = 5184000) ∧
    (∀ price, packageDaily price = none →
      balOf (cb_package s uid price now) uid = u.balance ∧
      (userOf (cb_package s uid price now) uid).packages = u.packages) ∧
    (∀ price d, packageDaily price = some d → u.balance + TOL < (price : ℚ) →
      balOf (cb_package s uid price now) uid = u.balance ∧
      (userOf (cb_package s uid price now) uid).packages = u.packages) := by
  have hexact : ∀ price : ℕ, round8 (u.balance - (price : ℚ)) = u.balance - (price : ℚ) :=
    fun price => (hm.sub (Mul8.natCast price)).round8_eq
  refine ⟨?_, ?_, ?_⟩
  · intro price d hd hsuff
    cases hflag : u.first_package_activated with
    | true =>
        rw [cb_package_success_flagged now hu hd hsuff hflag]
        refine ⟨?_, ?_, by simp [PACKAGE_SECONDS]⟩
        · rw [balOf, userOf_setUser_self]
          exact hexact price
        · rw [userOf_setUser_self]
    | false =>
        cases htr : refTruthy u.referrer_id with
        | false =>
            rw [cb_package_success_noref now hu hd hsuff hflag htr]
            refine ⟨?_, ?_, by simp [PACKAGE_SECONDS]⟩
            · rw [balOf, userOf_setUser_self]
              exact hexact price
            · rw [userOf_setUser_self]
        | true =>
            cases href : u.referrer_id with
            | none => rw [href] at htr; simp [refTruthy] at htr
            | some rid =>
                have hrid0 : rid ≠ 0 := by
                  rw [href] at htr
                  simpa [refTruthy] using htr
                have hne : rid ≠ uid := by
                  intro hEq
                  exact hself (hEq ▸ href)
                cases hrr : s.users rid with
                | some r =>
                    rw [cb_package_success_ref now hu hd hsuff hflag href hrid0 hne hrr]
                    refine ⟨?_, ?_, by simp [PACKAGE_SECONDS]⟩
                    · rw [balOf, userOf_setUser_self]
                      exact hexact price
                    · rw [userOf_setUser_self]
                | none =>
                    rw [cb_package_success_refAbsent now hu hd hsuff hflag href hrid0 hne hrr]
                    refine ⟨?_, ?_, by simp [PACKAGE_SECONDS]⟩
                    · rw [balOf, userOf_setUser_self]
                      exact hexact price
                    · rw [userOf_setUser_self]
  · intro price hd
    rw [cb_package_invalid now hd, ensure_user_existing hu, balOf, userOf_present hu]
    exact ⟨rfl, rfl⟩
  · intro price d hd hins
    rw [cb_package_insufficient now hu hd hins, balOf, userOf_present hu]
    exact ⟨rfl, rfl⟩

/-- Witness for C5: buyer 5 activates the 50 package at time 1000. -/
theorem package_activation_exact_witness :
    balOf (cb_package refState 5 50 1000) 5 = buyerUser.balance - ((50 : ℕ) : ℚ) ∧
    (userOf (cb_package refState 5 50 1000) 5).packages =
      buyerUser.packages ++ [{ name := toString (50 : ℕ) ++ " USDT", price := ((50 : ℕ) : ℚ),
                               daily := 166/100, start_ts := 1000,
                               end_ts := 1000 + PACKAGE_SECONDS, last_claim_date := none }] ∧
    ((1000 : ℤ) + PACKAGE_SECONDS) - 1000 = 5184000 :=
  (package_activation_exact refState 5 buyerUser 1000 rfl
    ⟨5000000000, by norm_num [buyerUser, defaultUser]⟩ (by decide)).1 50 (166/100) rfl
    (by norm_num [buyerUser, defaultUser, TOL])

/-- C6: `cmd_daily_reward` is idempotent for a fixed UTC date and instant:
the second call credits 0 and leaves the state (in particular every package's
`last_claim_date`) unchanged. -/
theorem cmd_daily_reward_idempotent (s : LState) (uid : ℕ) (today : String) (now : ℤ) :
    cmd_daily_reward ((cmd_daily_reward s uid today now).1) uid today now
      = ((cmd_daily_reward s uid today now).1, 0) := by
  obtain ⟨w, hw, hst⟩ := cmd_daily_reward_post s uid today now
  exact cmd_daily_reward_noop hw hst

/-- C7: a validly signed, accepted, positive notification whose `pay_address`
differs from the target user's stored `deposit_address` (including an absent
address) credits nothing and marks nothing processed. -/
theorem ipn_address_mismatch_no_credit
    (s : LState) (status : String) (credited : ℚ) (order_id pay_address : String) (tg : ℕ)
    (sendOk : Bool)
    (hstat : status = "finished" ∨ status = "confirmed") (hoid : order_id ≠ "")
    (hpos : 0 < credited) (hnew : order_id ∉ s.processed)
    (hparse : parseOrderUid order_id = some tg)
    (hmis : depositAddrOf s tg ≠ some pay_address) :
    (∀ v, balOf (ipn_nowpayments s true status credited order_id pay_address sendOk) v
      = balOf s v) ∧
    (ipn_nowpayments s true status credited order_id pay_address sendOk).processed
      = s.processed := by
  have hcond : (status = "finished" ∨ status = "confirmed") ∧ order_id ≠ "" ∧ 0 < credited :=
    ⟨hstat, hoid, hpos⟩
  have haddr : ¬ ((userOf (ensure_user s tg none) tg).deposit_address = some pay_address) := by
    rw [userOf_ensure_self]
    exact hmis
  simp only [ipn_nowpayments, Bool.not_true, Bool.false_eq_true, if_false, if_pos hcond,
    if_neg hnew, hparse, if_neg haddr]
  exact ⟨ensure_balOf s tg none, ensure_user_processed s tg none⟩

/-- Witness for C7: order 7-1 paid at "OTHER" while user 7 holds "ADDR". -/
theorem ipn_address_mismatch_no_credit_witness :
    balOf (ipn_nowpayments ipnState true "finished" 50 "7-1" "OTHER" true) 7
      = balOf ipnState 7 ∧
    (ipn_nowpayments ipnState true "finished" 50 "7-1" "OTHER" true).processed
      = ipnState.processed := by
  have h := ipn_address_mismatch_no_credit ipnState "finished" 50 "7-1" "OTHER" 7 true
    (Or.inl rfl) (by decide) (by norm_num) (by simp [ipnState, oneUserState])
    (by decide) (by decide)
  exact ⟨h.1 7, h.2⟩

/-- C8 counterexample: two sequential credits of `0.000000014` from balance 0
do not yield `round(a + b, 8)` — per-mutation rounding loses the carried
sub-digit. -/
theorem sequential_credit_rounding_counterexample :
    balOf (add_balance (add_balance zeroState 1 (7/500000000)) 1 (7/500000000)) 1
      ≠ round8 (7/500000000 + 7/500000000) := by
  norm_num [add_balance, zeroState, oneUserState, setUser, userOf, balOf, defaultUser,
    round8_floor]

/-- C8 (amended): for amounts that are multiples of `10 ^ (-8)`, two
sequential credits from balance 0 give exactly `round(a + b, 8) = a + b`. -/
theorem sequential_credit_exact_at_precision
    (s : LState) (uid : ℕ) (u : UserRec) (a b : ℚ)
    (hu : s.users uid = some u) (h0 : u.balance = 0)
    (ha : 0 ≤ a) (hb : 0 ≤ b) (hma : Mul8 a) (hmb : Mul8 b) :
    balOf (add_balance (add_balance s uid a) uid b) uid = round8 (a + b) ∧
    round8 (a + b) = a + b := by
  have h2 : round8 (a + b) = a + b := (hma.add hmb).round8_eq
  refine ⟨?_, h2⟩
  rw [add_balance_present a hu, add_balance_present b (setUser_users_self s uid _),
    setUser_setUser, balOf, userOf_setUser_self]
  rw [h0, zero_add, hma.round8_eq]

/-- Witness for C8 (amended) with a = 2, b = 3. -/
theorem sequential_credit_exact_witness :
    balOf (add_balance (add_balance zeroState 1 2) 1 3) 1 = round8 ((2 : ℚ) + 3) ∧
    round8 ((2 : ℚ) + 3) = 2 + 3 :=
  sequential_credit_exact_at_precision zeroState 1 (defaultUser none) 2 3 rfl rfl
    (by norm_num) (by norm_num) ⟨200000000, by norm_num⟩ ⟨300000000, by norm_num⟩

/-- C9: for an id with no ledger record, `add_balance` and `deduct_balance`
leave the map unchanged (the debit failing), and another user's activation
never creates — hence never credits — the absent record (a referral bonus to
an unrecorded referrer is silently dropped). -/
theorem absent_user_ops_noop (s : LState) (uid : ℕ) (a : ℚ) (h : s.users uid = none) :
    add_balance s uid a = s ∧ deduct_balance s uid a = (s, false) ∧
    ∀ uid2 price now, uid2 ≠ uid → (cb_package s uid2 price now).users uid = none := by
  refine ⟨add_balance_absent a h, deduct_balance_absent a h, ?_⟩
  intro uid2 price now hne2
  exact cb_package_preserves_none (Ne.symm hne2) price now h

/-- Witness for C9: user 9's activation drops the bonus for absent referrer 3. -/
theorem absent_user_ops_noop_witness :
    add_balance refAbsState 3 5 = refAbsState ∧
    deduct_balance refAbsState 3 5 = (refAbsState, false) ∧
    (cb_package refAbsState 9 50 0).users 3 = none := by
  have h := absent_user_ops_noop refAbsState 3 5 rfl
  exact ⟨h.1, h.2.1, h.2.2 9 50 0 (by decide)⟩

/-- C10 (amended): when the admin-channel send fails, the debited amount is
credited back and the withdraw state resets to idle; the balance is restored
exactly whenever the amount (and balance) are multiples of `10 ^ (-8)`. -/
theorem withdraw_send_failure_refund
    (s : LState) (uid : ℕ) (u : UserRec) (text : String) (a : ℚ)
    (hu : s.users uid = some u) (hst : u.withdraw_state = some WState.amount)
    (hmin : ¬ (a < MIN_WITHDRAWAL)) (hsuff : ¬ (u.balance + TOL < a))
    (hma : Mul8 a) (hmb : Mul8 u.balance) :
    balOf (handle_withdraw_input s uid text (some a) false) uid = u.balance ∧
    (userOf (handle_withdraw_input s uid text (some a) false) uid).withdraw_state = none := by
  simp only [handle_withdraw_input]
  rw [ensure_user_existing hu, userOf_present hu, hst]
  simp only [if_neg hmin]
  rw [deduct_balance_success hu hsuff]
  simp only [Bool.not_true, Bool.false_eq_true, if_false]
  rw [add_balance_present _ (setUser_users_self s uid _), setUser_setUser,
    userOf_setUser_self, setUser_setUser]
  have hbal : round8 (round8 (u.balance - a) + a) = u.balance := by
    rw [(hmb.sub hma).round8_eq, ((hmb.sub hma).add hma).round8_eq]
    ring
  constructor
  · rw [balOf, userOf_setUser_self]
    exact hbal
  · rw [userOf_setUser_self]

/-- C10 counterexample: with balance 10 a failed withdrawal of
`1.501953125` (an exactly representable amount finer than 8 decimals) leaves
balance `10.00000001`, not the balance before. -/
theorem withdraw_refund_counterexample :
    balOf (handle_withdraw_input wdState 1 "x" (some (769/512)) false) 1 ≠ balOf wdState 1 ∧
    balOf (handle_withdraw_input wdState 1 "x" (some (769/512)) false) 1
      = 1000000001/100000000 := by
  constructor <;>
    norm_num [handle_withdraw_input, ensure_user, deduct_balance, add_balance,
      MIN_WITHDRAWAL, TOL, wdState, wdUser, oneUserState, setUser, userOf, balOf,
      defaultUser, round8_floor]

/-- Witness for C10 (amended): a failed withdrawal of 2 from balance 10
restores balance 10 and resets the state. -/
theorem withdraw_send_failure_refund_witness :
    balOf (handle_withdraw_input wdState 1 "B2" (some 2) false) 1 = wdUser.balance ∧
    (userOf (handle_withdraw_input wdState 1 "B2" (some 2) false) 1).withdraw_state = none :=
  withdraw_send_failure_refund wdState 1 wdUser "B2" 2 rfl rfl
    (by norm_num [MIN_WITHDRAWAL]) (by norm_num [wdUser, defaultUser, TOL])
    ⟨200000000, by norm_num⟩ ⟨1000000000, by norm_num [wdUser, defaultUser]⟩

/-- C1 (code-bug evidence): a send failure on the first delivery of order
"7-1" skips `processed_orders.add`, so redelivering the same order credits
user 7 a second time (balance 100 after two deliveries of 50). -/
theorem ipn_send_failure_double_credits :
    balOf (ipn_nowpayments (ipn_nowpayments ipnState true "finished" 50 "7-1" "ADDR" false)
      true "finished" 50 "7-1" "ADDR" true) 7 = 100 ∧
    (ipn_nowpayments ipnState true "finished" 50 "7-1" "ADDR" false).processed = [] := by
  constructor <;>
    norm_num +decide [ipn_nowpayments, parseOrderUid, digitsToNat?, ensure_user, add_balance,
      ipnState, oneUserState, setUser, userOf, balOf, ipnUser, defaultUser, round8_floor]

/-- C3 (code-bug evidence): with pending address "X", user 1's deposit whose
replenishment fails leaves "X" in the pending slot, and user 2's deposit then
receives the same address "X". -/
theorem deposit_replenish_failure_reuses_address :
    depositAddrOf (cmd_deposit (cmd_deposit depState 1 false "N") 2 true "N2") 1 = some "X" ∧
    depositAddrOf (cmd_deposit (cmd_deposit depState 1 false "N") 2 true "N2") 2 = some "X" := by
  constructor <;>
    norm_num [cmd_deposit, ensure_user, depState, setUser, userOf, depositAddrOf, defaultUser]
